import Mathlib

/-!
Verification of the xrcache content-addressed caching engine.

The repository ships its engine only through documentation and example
notebooks; the definitions below are therefore modelled from the design
document (spec.md), as a shallow embedding: data objects are records with
an association-list attribute mapping, the on-disk cache directory is an
explicit state value, and the per-call state machine of section 4.5 is the
function `invoke`, which also returns the ordered list of observable
side effects it performed.  The hash engine of section 4.1 is modelled as
an injective encoding into the natural numbers, idealizing the stated
collision-resistance contract of the digest.
-/

set_option maxRecDepth 4000

namespace Xrcache

/-- Modelled from the spec: serializable non-data parameter values of a call
signature (section 4.2): numbers, booleans and strings serialize directly,
and the elided data argument is the sentinel `null`. -/
inductive SValue where
  | null : SValue
  | vBool (b : Bool) : SValue
  | vInt (n : Int) : SValue
  | vStr (s : String) : SValue
deriving DecidableEq

/-- Modelled from the spec: the canonical per-invocation call signature
record (section 3, CallSignature): function name, the name and recorded
type tag of the elided data parameter, and the ordered canonicalized
parameter mapping. -/
structure CallSignature where
  function_name : String
  dataParam : String
  typeTag : String
  parameters : List (String × SValue)
deriving DecidableEq

/-- Attribute values carried in a data object attribute mapping: plain
strings, hash digests, and an attached signature record. -/
inductive AttrVal where
  | aStr (s : String) : AttrVal
  | aHash (h : Nat) : AttrVal
  | aSig (sig : CallSignature) : AttrVal
deriving DecidableEq

/-- Modelled from the spec: a DataObject (section 3) is a named object with
an uninterpreted payload buffer and a metadata attribute mapping; the engine never
reads the payload, only the attributes. -/
structure DataObject where
  name : String
  payload : Int
  attrs : List (String × AttrVal)
deriving DecidableEq

/-- First-match lookup in an association list keyed by strings. -/
def lookupKV {α : Type} : List (String × α) → String → Option α
  | [], _ => none
  | (k, v) :: rest, key => if k = key then some v else lookupKV rest key

/-- Modelled from the spec: FunctionIdentity (section 3): the wrapped
function name, its data parameter name with a recorded type tag, and the
declared non-data parameters with their declared default values. -/
structure FunctionIdentity where
  name : String
  dataParam : String
  typeTag : String
  params : List (String × SValue)
deriving DecidableEq

/-- Modelled from the spec: SignatureCodec.encode (section 4.2): every
declared non-data parameter is bound to the keyword argument supplied at
the call site, or to its declared default when omitted; the data parameter
is represented only by its name and type tag (the `null` sentinel). -/
def buildSignature (f : FunctionIdentity) (kwargs : List (String × SValue)) : CallSignature :=
  { function_name := f.name
    dataParam := f.dataParam
    typeTag := f.typeTag
    parameters := f.params.map (fun p => (p.1, (lookupKV kwargs p.1).getD p.2)) }

/-- Base used for the positional encoding of character lists; it exceeds
every Unicode scalar value plus one. -/
def charBase : Nat := 4294967297

/-- Injective encoding of a character list as a natural number, digit by
digit in base `charBase`. -/
def encodeCharList : List Char → Nat
  | [] => 0
  | c :: cs => (c.toNat + 1) + charBase * encodeCharList cs

/-- Modelled from the spec: the HashEngine content digest of a string
(section 4.1), idealized as an injective encoding. -/
def encodeString (s : String) : Nat := encodeCharList s.data

/-- Injective encoding of an integer as a natural number. -/
def encodeInt : Int → Nat
  | .ofNat n => 2 * n
  | .negSucc n => 2 * n + 1

/-- Injective encoding of a serialized parameter value. -/
def encodeValue : SValue → Nat
  | .null => Nat.pair 0 0
  | .vBool b => Nat.pair 1 (cond b 1 0)
  | .vInt n => Nat.pair 2 (encodeInt n)
  | .vStr s => Nat.pair 3 (encodeString s)

/-- Injective encoding of the canonicalized parameter mapping. -/
def encodeParamList : List (String × SValue) → Nat
  | [] => 0
  | (k, v) :: rest =>
    Nat.pair (Nat.pair (encodeString k) (encodeValue v)) (encodeParamList rest) + 1

/-- Modelled from the spec: the signature hash (section 4.2), the digest of
the canonical byte form of a call signature, idealized as an injective
structural encoding. -/
def hashSignature (sig : CallSignature) : Nat :=
  Nat.pair (encodeString sig.function_name)
    (Nat.pair (encodeString sig.dataParam)
      (Nat.pair (encodeString sig.typeTag) (encodeParamList sig.parameters)))

/-- Modelled from the spec: CacheKey combination (section 4.3): the final
hash is a structural digest over the pair of input hash and signature
hash, and of nothing else. -/
def combineHash (hash_input hash_function : Nat) : Nat :=
  Nat.pair hash_input hash_function

/-- Modelled from the spec: the composed cache key (section 3). -/
structure CacheKey where
  hash_input : Nat
  hash_function : Nat
  hash : Nat
deriving DecidableEq

/-- Key composition: always succeeds on a present input hash and is a pure
function of the two component hashes. -/
def combineKey (hi hf : Nat) : CacheKey :=
  { hash_input := hi, hash_function := hf, hash := combineHash hi hf }

/-- Modelled from the spec: a persisted cache index record (section 3,
CacheEntry). -/
structure CacheEntry where
  keyHash : Nat
  hash_input : Nat
  hash_function : Nat
  display_name : String
  function_name : String
  file_path : String
  array_name : String
deriving DecidableEq

/-- Modelled from the spec: the state of one cache directory: its path, the
loaded index (contents of the index file), and the stored object files. -/
structure CacheState where
  dir : String
  index : List CacheEntry
  files : List (String × DataObject)
deriving DecidableEq

/-- Modelled from the spec: the single index file of a cache directory
(section 6); the notebooks show it as `cache/hash.json`. -/
def indexPath (s : CacheState) : String := s.dir ++ "/hash.json"

/-- Lowercase hexadecimal digit character for a value below sixteen. -/
def hexChar (n : Nat) : Char :=
  if n < 10 then Char.ofNat (48 + n) else Char.ofNat (87 + n)

/-- Big-endian, fixed-width hexadecimal digit list of a natural number. -/
def hexFixed : Nat → Nat → List Char
  | 0, _ => []
  | fuel + 1, n => hexFixed fuel (n / 16) ++ [hexChar (n % 16)]

/-- Forty-digit hexadecimal rendering of a hash, the width shown by the
example digests in the notebooks. -/
def hexStr (h : Nat) : String := String.mk (hexFixed 40 h)

/-- Modelled from the spec: the fixed-length three-character short form of
a hash used in stored file names (section 4.4 and the changelog). -/
def shortHash (h : Nat) : String := String.mk ((hexFixed 40 h).take 3)

/-- Modelled from the spec: the file extension supplied by the external
codec; the notebooks store netCDF files. -/
def codecExt : String := ".nc"

/-- The sixteen lowercase hexadecimal digit characters. -/
def hexDigits : List Char := "0123456789abcdef".data

/-- Modelled from the spec: stored object file naming (section 4.4),
`display name`, function name and a hash suffix joined by double
underscores inside the cache directory. -/
def objectFileName (s : CacheState) (display fname suffix : String) : String :=
  s.dir ++ "/" ++ display ++ "__" ++ fname ++ "__" ++ suffix ++ codecExt

/-- Modelled from the spec: a stored file name clashes when the index maps
that name to a different key (section 4.4); identity is always resolved
via the index, never from file names. -/
def fileNameClash : List CacheEntry → String → Nat → Bool
  | [], _, _ => false
  | e :: rest, path, kh =>
    if e.file_path = path ∧ e.keyHash ≠ kh then true else fileNameClash rest path kh

/-- Modelled from the spec: CacheIndex lookup by final key hash
(section 4.4), an in-memory query of the loaded index. -/
def lookupEntry : List CacheEntry → Nat → Option CacheEntry
  | [], _ => none
  | e :: rest, kh => if e.keyHash = kh then some e else lookupEntry rest kh

/-- Observable side effects of one invocation, in the order they were
performed. -/
inductive Effect where
  | lookupIndex : Effect
  | execFunction : Effect
  | readFile (path : String) : Effect
  | writeFile (path : String) : Effect
  | writeIndex (path : String) : Effect
deriving DecidableEq

/-- Modelled from the spec: the CacheStore write path (section 4.4): derive
the short name, fall back to the full hash on a clash with a different
key, write the object file, then update and persist the index. -/
def store (s : CacheState) (key : CacheKey) (obj : DataObject)
    (display fname arrName : String) : CacheState × CacheEntry × List Effect :=
  let pref := objectFileName s display fname (shortHash key.hash)
  let path := if fileNameClash s.index pref key.hash then
    objectFileName s display fname (hexStr key.hash) else pref
  let entry : CacheEntry :=
    { keyHash := key.hash, hash_input := key.hash_input, hash_function := key.hash_function
      display_name := display, function_name := fname, file_path := path, array_name := arrName }
  ({ s with index := entry :: s.index, files := (path, obj) :: s.files },
   entry, [Effect.writeFile path, Effect.writeIndex (indexPath s)])

/-- Modelled from the spec: CacheStore.load (section 4.4), deserializing
the stored object file at a path; a missing file is a read failure. -/
def loadFile (s : CacheState) (path : String) : Option DataObject :=
  lookupKV s.files path

/-- Modelled from the spec: the recognized per-call options (section 4.5);
`verbose` only drives the observability channel. -/
structure CallOptions where
  cache : Bool
  hash_override : Option Nat
  verbose : Bool
deriving DecidableEq

/-- Modelled from the spec: the error taxonomy of section 7 reachable in
this embedding. -/
inductive CacheError where
  | missingInputHash : CacheError
  | storageRead (path : String) : CacheError
deriving DecidableEq

/-- Modelled from the spec: EXTRACT_INPUT_HASH (section 4.5, step 2): use
the override when given, else the `hash` attribute of the data argument;
absent on both means no input hash. -/
def extractInputHash (opts : CallOptions) (input : DataObject) : Option Nat :=
  match opts.hash_override with
  | some h => some h
  | none =>
    match lookupKV input.attrs "hash" with
    | some (AttrVal.aHash h) => some h
    | _ => none

/-- Modelled from the spec: STAMP_METADATA (section 4.5, step 7): attach
the final combined hash, the propagated input hash, the serialized call
signature and the signature hash to the result attribute mapping.  The
attribute names are the ones shown in the caching notebook. -/
def stampMetadata (raw : DataObject) (key : CacheKey) (sig : CallSignature) : DataObject :=
  { raw with attrs :=
      ("hash", AttrVal.aHash key.hash) ::
      ("hash_input", AttrVal.aHash key.hash_input) ::
      ("function_signature", AttrVal.aSig sig) ::
      ("hash_function", AttrVal.aHash key.hash_function) :: raw.attrs }

/-- Modelled from the spec: the CachedInvocation state machine of
section 4.5.  The returned effect list records, in temporal order, the
index lookup, an execution of the wrapped function, and the file and
index writes of the store step; the `BYPASS` branch calls the function
verbatim and touches nothing. -/
def invoke (f : FunctionIdentity) (impl : DataObject → DataObject) (input : DataObject)
    (kwargs : List (String × SValue)) (opts : CallOptions) (s : CacheState) :
    Except CacheError (DataObject × CacheState × List Effect) :=
  if opts.cache then
    match extractInputHash opts input with
    | none => Except.error CacheError.missingInputHash
    | some hi =>
      let sig := buildSignature f kwargs
      let key := combineKey hi (hashSignature sig)
      match lookupEntry s.index key.hash with
      | some entry =>
        match loadFile s entry.file_path with
        | some obj => Except.ok (obj, s, [Effect.lookupIndex, Effect.readFile entry.file_path])
        | none => Except.error (CacheError.storageRead entry.file_path)
      | none =>
        let stamped := stampMetadata (impl input) key sig
        let res := store s key stamped input.name f.name input.name
        Except.ok (stamped, res.1, Effect.lookupIndex :: Effect.execFunction :: res.2.2)
  else
    Except.ok (impl input, s, [Effect.execFunction])

/-- Concrete wrapped-function identity used to exercise the engine: data
parameter `x` of type tag `T` and one non-data parameter `k` with declared
default 2. -/
def exF : FunctionIdentity := ⟨"f", "x", "T", [("k", SValue.vInt 2)]⟩

/-- Concrete wrapped-function identity with a `factor` parameter, the
`scale` scenario of the testable properties section. -/
def exScale : FunctionIdentity := ⟨"g", "x", "T", [("factor", SValue.vInt 2)]⟩

/-- Concrete wrapped-function body: bumps the uninterpreted payload. -/
def exImpl : DataObject → DataObject := fun o => { o with payload := o.payload + 1 }

/-- Concrete tagged input object carrying the input hash 7. -/
def exIn : DataObject := ⟨"a", 0, [("hash", AttrVal.aHash 7)]⟩

/-- Concrete untagged input object: no `hash` attribute. -/
def exInBare : DataObject := ⟨"a", 0, []⟩

/-- Concrete empty cache directory state. -/
def exS : CacheState := ⟨"cache", [], []⟩

/-- Cache key of the call of `exF` on `exIn` with no keyword arguments. -/
def exKey : CacheKey := combineKey 7 (hashSignature (buildSignature exF []))

/-- Stamped result of that first call. -/
def exStamped : DataObject := stampMetadata (exImpl exIn) exKey (buildSignature exF [])

/-- Store step performed by that first call. -/
def exStore : CacheState × CacheEntry × List Effect := store exS exKey exStamped "a" "f" "a"

/-- Cache state after the first call of `exF` on `exIn`. -/
def exS1 : CacheState := exStore.1

/-- An index entry mapping the preferred short file name of `exKey` to a
different key, forcing the clash fallback of the store step. -/
def cxEntry : CacheEntry :=
  { keyHash := 999, hash_input := 0, hash_function := 0, display_name := "a"
    function_name := "f", file_path := objectFileName exS "a" "f" (shortHash exKey.hash)
    array_name := "a" }

/-- A cache state whose index already holds `cxEntry`. -/
def cxS : CacheState := ⟨"cache", [cxEntry], []⟩

/-- Stored object file paths of the resulting cache state of a call, or
the empty list when the call failed. -/
def resultFilePaths (res : Except CacheError (DataObject × CacheState × List Effect)) :
    List String :=
  match res with
  | Except.ok (_, s', _) => s'.files.map Prod.fst
  | Except.error _ => []

/-- Association-list lookup finds the value just added under the same key. -/
theorem lookupKV_cons_eq {α : Type} (k : String) (v : α) (l : List (String × α)) :
    lookupKV ((k, v) :: l) k = some v := by
  simp [lookupKV]

/-- Association-list lookup skips an entry with a different key. -/
theorem lookupKV_cons_ne {α : Type} (k key : String) (v : α) (l : List (String × α))
    (h : k ≠ key) : lookupKV ((k, v) :: l) key = lookupKV l key := by
  simp [lookupKV, h]

/-- Index lookup skips an entry recorded under a different key hash. -/
theorem lookupEntry_cons_ne (e : CacheEntry) (l : List CacheEntry) (kh : Nat)
    (h : e.keyHash ≠ kh) : lookupEntry (e :: l) kh = lookupEntry l kh := by
  simp [lookupEntry, h]

/-- The fixed-width hexadecimal rendering has exactly the requested width. -/
theorem hexFixed_length (fuel n : Nat) : (hexFixed fuel n).length = fuel := by
  induction fuel generalizing n with
  | zero => rfl
  | succ m ih => simp [hexFixed, ih]

/-- Every Unicode scalar value is below 2 to the 32. -/
theorem char_toNat_lt (c : Char) : c.toNat < 4294967296 := by
  have h := c.val.toBitVec.isLt
  have e : (2 : Nat) ^ 32 = 4294967296 := by norm_num
  rw [e] at h
  exact h

/-- Characters with equal scalar values are equal. -/
theorem char_toNat_injective {c d : Char} (h : c.toNat = d.toNat) : c = d :=
  Char.eq_of_val_eq (UInt32.ext h)

/-- The positional character-list encoding is injective. -/
theorem encodeCharList_injective : ∀ {l₁ l₂ : List Char},
    encodeCharList l₁ = encodeCharList l₂ → l₁ = l₂ := by
  intro l₁
  induction l₁ with
  | nil =>
    intro l₂ h
    cases l₂ with
    | nil => rfl
    | cons d ds => exfalso; simp only [encodeCharList, charBase] at h; omega
  | cons c cs ih =>
    intro l₂ h
    cases l₂ with
    | nil => exfalso; simp only [encodeCharList, charBase] at h; omega
    | cons d ds =>
      simp only [encodeCharList, charBase] at h
      have hc := char_toNat_lt c
      have hd := char_toNat_lt d
      have hcd : c.toNat = d.toNat ∧ encodeCharList cs = encodeCharList ds := by
        constructor <;> omega
      rw [char_toNat_injective hcd.1, ih hcd.2]

/-- The modelled string digest is injective. -/
theorem encodeString_injective {s t : String} (h : encodeString s = encodeString t) : s = t := by
  have hd : s.data = t.data := encodeCharList_injective h
  exact congrArg String.mk hd

/-- The integer encoding is injective. -/
theorem encodeInt_injective : ∀ {a b : Int}, encodeInt a = encodeInt b → a = b := by
  intro a b h
  cases a <;> cases b <;> simp only [encodeInt] at h
  · exact congrArg Int.ofNat (by omega)
  · omega
  · omega
  · exact congrArg Int.negSucc (by omega)

/-- The parameter-value encoding is injective. -/
theorem encodeValue_injective : ∀ {v w : SValue}, encodeValue v = encodeValue w → v = w := by
  intro v w h
  cases v <;> cases w <;> simp only [encodeValue, Nat.pair_eq_pair] at h
  all_goals try omega
  · rfl
  · rename_i a b
    cases a <;> cases b <;> simp_all
  · rename_i a b
    exact congrArg SValue.vInt (encodeInt_injective h.2)
  · rename_i a b
    exact congrArg SValue.vStr (encodeString_injective h.2)

/-- The parameter-mapping encoding is injective. -/
theorem encodeParamList_injective : ∀ {l₁ l₂ : List (String × SValue)},
    encodeParamList l₁ = encodeParamList l₂ → l₁ = l₂ := by
  intro l₁
  induction l₁ with
  | nil =>
    intro l₂ h
    cases l₂ with
    | nil => rfl
    | cons q qs =>
      exfalso
      obtain ⟨k', v'⟩ := q
      simp only [encodeParamList] at h
      omega
  | cons p ps ih =>
    intro l₂ h
    obtain ⟨k, v⟩ := p
    cases l₂ with
    | nil => exfalso; simp only [encodeParamList] at h; omega
    | cons q qs =>
      obtain ⟨k', v'⟩ := q
      simp only [encodeParamList] at h
      have h' := Nat.add_right_cancel h
      obtain ⟨hkv, hrest⟩ := Nat.pair_eq_pair.mp h'
      obtain ⟨hk, hv⟩ := Nat.pair_eq_pair.mp hkv
      rw [encodeString_injective hk, encodeValue_injective hv, ih hrest]

/-- The modelled signature digest is injective: signatures with equal
hashes are equal records. -/
theorem hashSignature_injective {a b : CallSignature}
    (h : hashSignature a = hashSignature b) : a = b := by
  obtain ⟨n₁, d₁, t₁, p₁⟩ := a
  obtain ⟨n₂, d₂, t₂, p₂⟩ := b
  simp only [hashSignature] at h
  obtain ⟨h1, h'⟩ := Nat.pair_eq_pair.mp h
  obtain ⟨h2, h''⟩ := Nat.pair_eq_pair.mp h'
  obtain ⟨h3, h4⟩ := Nat.pair_eq_pair.mp h''
  simp only [CallSignature.mk.injEq]
  exact ⟨encodeString_injective h1, encodeString_injective h2,
    encodeString_injective h3, encodeParamList_injective h4⟩

/-- Distinct signature hashes produce distinct combined key hashes under
the same input hash. -/
theorem combineHash_right_injective {hi x y : Nat}
    (h : combineHash hi x = combineHash hi y) : x = y :=
  (Nat.pair_eq_pair.mp h).2

/-- Every hexadecimal digit character produced for a value below sixteen
belongs to the hexadecimal alphabet. -/
theorem hexChar_mem_hexDigits (n : Nat) (h : n < 16) : hexChar n ∈ hexDigits := by
  interval_cases n <;> decide

/-- Every character of a fixed-width hexadecimal rendering belongs to the
hexadecimal alphabet. -/
theorem hexFixed_subset_hexDigits : ∀ (fuel n : Nat), ∀ c ∈ hexFixed fuel n, c ∈ hexDigits := by
  intro fuel
  induction fuel with
  | zero => intro n c hc; simp [hexFixed] at hc
  | succ m ih =>
    intro n c hc
    simp only [hexFixed, List.mem_append, List.mem_singleton] at hc
    rcases hc with hc | hc
    · exact ih _ c hc
    · rw [hc]; exact hexChar_mem_hexDigits _ (Nat.mod_lt _ (by norm_num))

/-- The stamped result carries the final combined hash under `hash`. -/
theorem stamped_attr_hash (raw : DataObject) (key : CacheKey) (sig : CallSignature) :
    lookupKV (stampMetadata raw key sig).attrs "hash" = some (AttrVal.aHash key.hash) := by
  simp only [stampMetadata]
  exact lookupKV_cons_eq _ _ _

/-- The stamped result carries the propagated input hash under
`hash_input`. -/
theorem stamped_attr_hash_input (raw : DataObject) (key : CacheKey) (sig : CallSignature) :
    lookupKV (stampMetadata raw key sig).attrs "hash_input" =
      some (AttrVal.aHash key.hash_input) := by
  simp only [stampMetadata]
  rw [lookupKV_cons_ne _ _ _ _ (by decide)]
  exact lookupKV_cons_eq _ _ _

/-- The stamped result carries the serialized call signature under
`function_signature`. -/
theorem stamped_attr_signature (raw : DataObject) (key : CacheKey) (sig : CallSignature) :
    lookupKV (stampMetadata raw key sig).attrs "function_signature" =
      some (AttrVal.aSig sig) := by
  simp only [stampMetadata]
  rw [lookupKV_cons_ne _ _ _ _ (by decide), lookupKV_cons_ne _ _ _ _ (by decide)]
  exact lookupKV_cons_eq _ _ _

/-- The stamped result carries the signature hash under `hash_function`. -/
theorem stamped_attr_hash_function (raw : DataObject) (key : CacheKey) (sig : CallSignature) :
    lookupKV (stampMetadata raw key sig).attrs "hash_function" =
      some (AttrVal.aHash key.hash_function) := by
  simp only [stampMetadata]
  rw [lookupKV_cons_ne _ _ _ _ (by decide), lookupKV_cons_ne _ _ _ _ (by decide),
    lookupKV_cons_ne _ _ _ _ (by decide)]
  exact lookupKV_cons_eq _ _ _

/-- Stamping changes no attribute other than the four provenance fields. -/
theorem stamped_attr_frame (raw : DataObject) (key : CacheKey) (sig : CallSignature)
    (k : String) (h1 : k ≠ "hash") (h2 : k ≠ "hash_input")
    (h3 : k ≠ "function_signature") (h4 : k ≠ "hash_function") :
    lookupKV (stampMetadata raw key sig).attrs k = lookupKV raw.attrs k := by
  simp only [stampMetadata]
  rw [lookupKV_cons_ne _ _ _ _ (Ne.symm h1), lookupKV_cons_ne _ _ _ _ (Ne.symm h2),
    lookupKV_cons_ne _ _ _ _ (Ne.symm h3), lookupKV_cons_ne _ _ _ _ (Ne.symm h4)]

/-- Input-hash extraction never reads the verbose flag. -/
theorem extract_ignores_verbose (c : Bool) (ho : Option Nat) (vb vb₂ : Bool)
    (input : DataObject) :
    extractInputHash ⟨c, ho, vb₂⟩ input = extractInputHash ⟨c, ho, vb⟩ input := rfl

/-- On a cache miss the invocation executes the function, stamps the
result, stores it, and reports the lookup, execution and write effects in
order. -/
theorem invoke_miss_eq (f : FunctionIdentity) (impl : DataObject → DataObject)
    (input : DataObject) (kwargs : List (String × SValue)) (ho : Option Nat) (vb : Bool)
    (s : CacheState) (hi : Nat)
    (hin : extractInputHash ⟨true, ho, vb⟩ input = some hi)
    (hm : lookupEntry s.index (combineKey hi (hashSignature (buildSignature f kwargs))).hash = none) :
    invoke f impl input kwargs ⟨true, ho, vb⟩ s =
      Except.ok
        (stampMetadata (impl input) (combineKey hi (hashSignature (buildSignature f kwargs)))
          (buildSignature f kwargs),
         (store s (combineKey hi (hashSignature (buildSignature f kwargs)))
           (stampMetadata (impl input) (combineKey hi (hashSignature (buildSignature f kwargs)))
             (buildSignature f kwargs)) input.name f.name input.name).1,
         Effect.lookupIndex :: Effect.execFunction ::
           (store s (combineKey hi (hashSignature (buildSignature f kwargs)))
             (stampMetadata (impl input) (combineKey hi (hashSignature (buildSignature f kwargs)))
               (buildSignature f kwargs)) input.name f.name input.name).2.2) := by
  simp only [invoke, hin, hm, if_true]

/-- After any successful cached call, repeating the call with an
equal-signature argument list against the resulting state is a hit: it
returns the very object of the first call, leaves the state untouched,
and only reads the index and the stored file. -/
theorem invoke_again (f : FunctionIdentity) (impl impl₂ : DataObject → DataObject)
    (input : DataObject) (kwargs kwargs₂ : List (String × SValue)) (ho : Option Nat)
    (vb vb₂ : Bool) (s s₁ : CacheState) (r : DataObject) (t₁ : List Effect)
    (hsig : buildSignature f kwargs₂ = buildSignature f kwargs)
    (h₁ : invoke f impl input kwargs ⟨true, ho, vb⟩ s = Except.ok (r, s₁, t₁)) :
    ∃ p, invoke f impl₂ input kwargs₂ ⟨true, ho, vb₂⟩ s₁ =
      Except.ok (r, s₁, [Effect.lookupIndex, Effect.readFile p]) := by
  simp only [invoke, if_true] at h₁ ⊢
  rw [extract_ignores_verbose true ho vb vb₂, hsig]
  cases hE : extractInputHash ⟨true, ho, vb⟩ input with
  | none => rw [hE] at h₁; exact absurd h₁ (by simp)
  | some hi =>
    simp only [hE] at h₁
    cases hL : lookupEntry s.index (combineKey hi (hashSignature (buildSignature f kwargs))).hash with
    | some entry =>
      simp only [hL] at h₁
      cases hF : loadFile s entry.file_path with
      | none => rw [hF] at h₁; exact absurd h₁ (by simp)
      | some obj =>
        simp only [hF, Except.ok.injEq, Prod.mk.injEq] at h₁
        obtain ⟨h₁r, h₁s, h₁t⟩ := h₁
        subst h₁r; subst h₁s
        exact ⟨entry.file_path, by simp only [hL, hF]⟩
    | none =>
      simp only [hL, Except.ok.injEq, Prod.mk.injEq] at h₁
      obtain ⟨h₁r, h₁s, h₁t⟩ := h₁
      subst h₁r; subst h₁s
      refine ⟨(store s (combineKey hi (hashSignature (buildSignature f kwargs)))
        (stampMetadata (impl input) (combineKey hi (hashSignature (buildSignature f kwargs)))
          (buildSignature f kwargs)) input.name f.name input.name).2.1.file_path, ?_⟩
      simp only [store, lookupEntry, loadFile, lookupKV]
      simp

/-- C1: calling the cached function on a data argument that lacks the
`hash` attribute, with no hash override supplied, fails with
MissingInputHashError; the equation holds for every wrapped function
body, so the outcome never depends on the function, which is not
executed, and the call never silently degrades to uncached execution. -/
theorem missing_hash_rejected (f : FunctionIdentity) (impl : DataObject → DataObject)
    (input : DataObject) (kwargs : List (String × SValue)) (vb : Bool) (s : CacheState)
    (h : lookupKV input.attrs "hash" = none) :
    invoke f impl input kwargs ⟨true, none, vb⟩ s =
      Except.error CacheError.missingInputHash := by
  simp only [invoke, extractInputHash, h, if_true]

/-- Witness for C1 at a concrete untagged input. -/
theorem missing_hash_rejected_witness :
    invoke exF exImpl exInBare [] ⟨true, none, false⟩ exS =
      Except.error CacheError.missingInputHash :=
  missing_hash_rejected exF exImpl exInBare [] false exS rfl

/-- C2: after a successful cached call, a second call with identical
inputs against the resulting state returns the very same object (hence
one equal by value), leaves the state unchanged, and its effect trace
contains no execution of the wrapped function. -/
theorem second_call_cached (f : FunctionIdentity) (impl : DataObject → DataObject)
    (input : DataObject) (kwargs : List (String × SValue)) (ho : Option Nat) (vb : Bool)
    (s s₁ : CacheState) (r : DataObject) (t₁ : List Effect)
    (h₁ : invoke f impl input kwargs ⟨true, ho, vb⟩ s = Except.ok (r, s₁, t₁)) :
    ∃ p, invoke f impl input kwargs ⟨true, ho, vb⟩ s₁ =
        Except.ok (r, s₁, [Effect.lookupIndex, Effect.readFile p]) ∧
      Effect.execFunction ∉ [Effect.lookupIndex, Effect.readFile p] := by
  obtain ⟨p, hp⟩ := invoke_again f impl impl input kwargs kwargs ho vb vb s s₁ r t₁ rfl h₁
  exact ⟨p, hp, by simp⟩

/-- Witness for C2: a concrete first call on an empty cache followed by a
second identical call. -/
theorem second_call_cached_witness :
    ∃ p, invoke exF exImpl exIn [] ⟨true, none, false⟩ exS1 =
        Except.ok (exStamped, exS1, [Effect.lookupIndex, Effect.readFile p]) ∧
      Effect.execFunction ∉ [Effect.lookupIndex, Effect.readFile p] := by
  have h₁ : invoke exF exImpl exIn [] ⟨true, none, false⟩ exS =
      Except.ok (exStamped, exS1, Effect.lookupIndex :: Effect.execFunction :: exStore.2.2) :=
    invoke_miss_eq exF exImpl exIn [] none false exS 7 rfl rfl
  exact second_call_cached exF exImpl exIn [] none false exS exS1 exStamped _ h₁

/-- C4: with the cache option off, the invocation executes the wrapped
function and returns its result unmodified, the cache state (index and
files) is returned untouched, and the only effect is the function
execution: nothing is looked up and nothing is written. -/
theorem bypass_verbatim (f : FunctionIdentity) (impl : DataObject → DataObject)
    (input : DataObject) (kwargs : List (String × SValue)) (ho : Option Nat) (vb : Bool)
    (s : CacheState) :
    invoke f impl input kwargs ⟨false, ho, vb⟩ s =
      Except.ok (impl input, s, [Effect.execFunction]) := rfl

/-- C3: two sequential invocations with the same function, input and
arguments that both succeed return results with identical `hash`,
`hash_input` and `hash_function` attribute values; moreover, when the
first call executes (cache miss), its stamped final hash is exactly the
combination of the extracted input hash and the signature hash, a pure
function of those two values. -/
theorem metadata_determinism (f : FunctionIdentity) (impl : DataObject → DataObject)
    (input : DataObject) (kwargs : List (String × SValue)) (ho : Option Nat) (vb : Bool)
    (s s₁ s₂ : CacheState) (r₁ r₂ : DataObject) (t₁ t₂ : List Effect) (hi : Nat)
    (hin : extractInputHash ⟨true, ho, vb⟩ input = some hi)
    (h₁ : invoke f impl input kwargs ⟨true, ho, vb⟩ s = Except.ok (r₁, s₁, t₁))
    (h₂ : invoke f impl input kwargs ⟨true, ho, vb⟩ s₁ = Except.ok (r₂, s₂, t₂)) :
    (lookupKV r₁.attrs "hash" = lookupKV r₂.attrs "hash" ∧
     lookupKV r₁.attrs "hash_input" = lookupKV r₂.attrs "hash_input" ∧
     lookupKV r₁.attrs "hash_function" = lookupKV r₂.attrs "hash_function") ∧
    (lookupEntry s.index (combineKey hi (hashSignature (buildSignature f kwargs))).hash = none →
      lookupKV r₁.attrs "hash" =
        some (AttrVal.aHash (combineHash hi (hashSignature (buildSignature f kwargs))))) := by
  obtain ⟨p, hp⟩ := invoke_again f impl impl input kwargs kwargs ho vb vb s s₁ r₁ t₁ rfl h₁
  rw [h₂] at hp
  simp only [Except.ok.injEq, Prod.mk.injEq] at hp
  obtain ⟨hr, hs, ht⟩ := hp
  subst hr
  refine ⟨⟨rfl, rfl, rfl⟩, fun hm => ?_⟩
  rw [invoke_miss_eq f impl input kwargs ho vb s hi hin hm] at h₁
  simp only [Except.ok.injEq, Prod.mk.injEq] at h₁
  obtain ⟨hr₁, -, -⟩ := h₁
  rw [← hr₁]
  exact stamped_attr_hash _ _ _

/-- Witness for C3: a concrete miss-then-hit pair of calls. -/
theorem metadata_determinism_witness :
    (lookupKV exStamped.attrs "hash" = lookupKV exStamped.attrs "hash" ∧
     lookupKV exStamped.attrs "hash_input" = lookupKV exStamped.attrs "hash_input" ∧
     lookupKV exStamped.attrs "hash_function" = lookupKV exStamped.attrs "hash_function") ∧
    (lookupEntry exS.index (combineKey 7 (hashSignature (buildSignature exF []))).hash = none →
      lookupKV exStamped.attrs "hash" =
        some (AttrVal.aHash (combineHash 7 (hashSignature (buildSignature exF []))))) := by
  have h₁ : invoke exF exImpl exIn [] ⟨true, none, false⟩ exS =
      Except.ok (exStamped, exS1, Effect.lookupIndex :: Effect.execFunction :: exStore.2.2) :=
    invoke_miss_eq exF exImpl exIn [] none false exS 7 rfl rfl
  have h₂ : invoke exF exImpl exIn [] ⟨true, none, false⟩ exS1 =
      Except.ok (exStamped, exS1, [Effect.lookupIndex, Effect.readFile exStore.2.1.file_path]) := by
    rfl
  exact metadata_determinism exF exImpl exIn [] none false exS exS1 exS1 exStamped exStamped
    _ _ 7 rfl h₁ h₂

/-- C5: every executing cached call returns an object whose attribute
mapping carries the four provenance fields: the final combined hash under
`hash`, the propagated input hash under `hash_input`, the serialized call
signature (whose record holds the function name and the canonicalized
parameter mapping) under `function_signature`, and the signature hash
under `hash_function`; every other attribute is exactly that of the raw
function result. -/
theorem stamped_provenance (f : FunctionIdentity) (impl : DataObject → DataObject)
    (input : DataObject) (kwargs : List (String × SValue)) (ho : Option Nat) (vb : Bool)
    (s : CacheState) (hi : Nat)
    (hin : extractInputHash ⟨true, ho, vb⟩ input = some hi)
    (hm : lookupEntry s.index (combineKey hi (hashSignature (buildSignature f kwargs))).hash = none) :
    ∃ r s' t, invoke f impl input kwargs ⟨true, ho, vb⟩ s = Except.ok (r, s', t) ∧
      lookupKV r.attrs "hash" =
        some (AttrVal.aHash (combineKey hi (hashSignature (buildSignature f kwargs))).hash) ∧
      lookupKV r.attrs "hash_input" = some (AttrVal.aHash hi) ∧
      lookupKV r.attrs "function_signature" = some (AttrVal.aSig (buildSignature f kwargs)) ∧
      lookupKV r.attrs "hash_function" =
        some (AttrVal.aHash (hashSignature (buildSignature f kwargs))) ∧
      (buildSignature f kwargs).function_name = f.name ∧
      (buildSignature f kwargs).parameters =
        f.params.map (fun p => (p.1, (lookupKV kwargs p.1).getD p.2)) ∧
      (∀ k, k ≠ "hash" → k ≠ "hash_input" → k ≠ "function_signature" → k ≠ "hash_function" →
        lookupKV r.attrs k = lookupKV (impl input).attrs k) := by
  refine ⟨_, _, _, invoke_miss_eq f impl input kwargs ho vb s hi hin hm,
    stamped_attr_hash _ _ _, stamped_attr_hash_input _ _ _, stamped_attr_signature _ _ _,
    stamped_attr_hash_function _ _ _, rfl, rfl, ?_⟩
  intro k h1 h2 h3 h4
  exact stamped_attr_frame _ _ _ k h1 h2 h3 h4

/-- Witness for C5 at the concrete first call. -/
theorem stamped_provenance_witness :
    ∃ r s' t, invoke exF exImpl exIn [] ⟨true, none, false⟩ exS = Except.ok (r, s', t) ∧
      lookupKV r.attrs "hash" =
        some (AttrVal.aHash (combineKey 7 (hashSignature (buildSignature exF []))).hash) ∧
      lookupKV r.attrs "hash_input" = some (AttrVal.aHash 7) ∧
      lookupKV r.attrs "function_signature" = some (AttrVal.aSig (buildSignature exF [])) ∧
      lookupKV r.attrs "hash_function" =
        some (AttrVal.aHash (hashSignature (buildSignature exF []))) ∧
      (buildSignature exF []).function_name = exF.name ∧
      (buildSignature exF []).parameters =
        exF.params.map (fun p => (p.1, (lookupKV [] p.1).getD p.2)) ∧
      (∀ k, k ≠ "hash" → k ≠ "hash_input" → k ≠ "function_signature" → k ≠ "hash_function" →
        lookupKV r.attrs k = lookupKV (exImpl exIn).attrs k) :=
  stamped_provenance exF exImpl exIn [] none false exS 7 rfl rfl

/-- C6 (amended): on a cache-miss store whose derived short name is not
already mapped to a different key by the index, the persisted object file
name is the display name, function name and short hash joined by double
underscores plus the codec extension, and the short hash is a fixed-length
three-character prefix of the hexadecimal final key hash consisting of
hexadecimal digits. -/
theorem short_name_on_store (f : FunctionIdentity) (impl : DataObject → DataObject)
    (input : DataObject) (kwargs : List (String × SValue)) (ho : Option Nat) (vb : Bool)
    (s : CacheState) (hi : Nat)
    (hin : extractInputHash ⟨true, ho, vb⟩ input = some hi)
    (hm : lookupEntry s.index (combineKey hi (hashSignature (buildSignature f kwargs))).hash = none)
    (hclash : fileNameClash s.index
      (objectFileName s input.name f.name
        (shortHash (combineKey hi (hashSignature (buildSignature f kwargs))).hash))
      (combineKey hi (hashSignature (buildSignature f kwargs))).hash = false) :
    ∃ r s' t, invoke f impl input kwargs ⟨true, ho, vb⟩ s = Except.ok (r, s', t) ∧
      s'.files.head? = some (objectFileName s input.name f.name
        (shortHash (combineKey hi (hashSignature (buildSignature f kwargs))).hash), r) ∧
      objectFileName s input.name f.name
          (shortHash (combineKey hi (hashSignature (buildSignature f kwargs))).hash) =
        s.dir ++ "/" ++ input.name ++ "__" ++ f.name ++ "__" ++
          shortHash (combineKey hi (hashSignature (buildSignature f kwargs))).hash ++ codecExt ∧
      (shortHash (combineKey hi (hashSignature (buildSignature f kwargs))).hash).length = 3 ∧
      (hexFixed 40 (combineKey hi (hashSignature (buildSignature f kwargs))).hash).take 3 <+:
        hexFixed 40 (combineKey hi (hashSignature (buildSignature f kwargs))).hash ∧
      ∀ c ∈ (hexFixed 40 (combineKey hi (hashSignature (buildSignature f kwargs))).hash).take 3,
        c ∈ hexDigits := by
  refine ⟨_, _, _, invoke_miss_eq f impl input kwargs ho vb s hi hin hm, ?_, rfl, ?_, ?_, ?_⟩
  · simp only [store, hclash]
    simp
  · show ((hexFixed 40 (combineKey hi (hashSignature (buildSignature f kwargs))).hash).take 3).length = 3
    rw [List.length_take, hexFixed_length]
    decide
  · exact ⟨(hexFixed 40 (combineKey hi (hashSignature (buildSignature f kwargs))).hash).drop 3,
      List.take_append_drop 3 _⟩
  · intro c hc
    exact hexFixed_subset_hexDigits 40 _ c (List.take_subset 3 _ hc)

/-- Witness for C6 at the concrete first call on an empty cache. -/
theorem short_name_on_store_witness :
    ∃ r s' t, invoke exF exImpl exIn [] ⟨true, none, false⟩ exS = Except.ok (r, s', t) ∧
      s'.files.head? = some (objectFileName exS exIn.name exF.name (shortHash exKey.hash), r) ∧
      objectFileName exS exIn.name exF.name (shortHash exKey.hash) =
        exS.dir ++ "/" ++ exIn.name ++ "__" ++ exF.name ++ "__" ++
          shortHash exKey.hash ++ codecExt ∧
      (shortHash exKey.hash).length = 3 ∧
      (hexFixed 40 exKey.hash).take 3 <+: hexFixed 40 exKey.hash ∧
      ∀ c ∈ (hexFixed 40 exKey.hash).take 3, c ∈ hexDigits :=
  short_name_on_store exF exImpl exIn [] none false exS 7 rfl rfl rfl

/-- Counterexample to C6 as stated: when the index already maps the
derived short file name to a different key, the store falls back to the
full-hash file name, so the persisted name is not the three-character
short form. -/
theorem short_name_clash_counterexample :
    resultFilePaths (invoke exF exImpl exIn [] ⟨true, none, false⟩ cxS) =
      [objectFileName cxS "a" "f" (hexStr exKey.hash)] ∧
    objectFileName cxS "a" "f" (hexStr exKey.hash) ≠
      objectFileName cxS "a" "f" (shortHash exKey.hash) := by
  constructor
  · decide
  · decide

/-- C7: two invocations with the same input hash whose canonicalized
signatures assign different values to some non-data parameter have
different signature hashes and different final key hashes; run one after
the other from a state holding neither key, both execute the wrapped
function, and the index ends with two distinct entries, both recording
the same input hash. -/
theorem kwarg_sensitivity (f : FunctionIdentity) (impl : DataObject → DataObject)
    (input : DataObject) (kwargs₁ kwargs₂ : List (String × SValue)) (ho : Option Nat)
    (vb : Bool) (s : CacheState) (hi : Nat) (pname : String) (v₁ v₂ : SValue)
    (hin : extractInputHash ⟨true, ho, vb⟩ input = some hi)
    (hv₁ : lookupKV (buildSignature f kwargs₁).parameters pname = some v₁)
    (hv₂ : lookupKV (buildSignature f kwargs₂).parameters pname = some v₂)
    (hne : v₁ ≠ v₂)
    (hm₁ : lookupEntry s.index (combineKey hi (hashSignature (buildSignature f kwargs₁))).hash = none)
    (hm₂ : lookupEntry s.index (combineKey hi (hashSignature (buildSignature f kwargs₂))).hash = none) :
    hashSignature (buildSignature f kwargs₁) ≠ hashSignature (buildSignature f kwargs₂) ∧
    (combineKey hi (hashSignature (buildSignature f kwargs₁))).hash ≠
      (combineKey hi (hashSignature (buildSignature f kwargs₂))).hash ∧
    ∃ r₁ s₁ t₁ r₂ s₂ t₂,
      invoke f impl input kwargs₁ ⟨true, ho, vb⟩ s = Except.ok (r₁, s₁, t₁) ∧
      invoke f impl input kwargs₂ ⟨true, ho, vb⟩ s₁ = Except.ok (r₂, s₂, t₂) ∧
      Effect.execFunction ∈ t₁ ∧ Effect.execFunction ∈ t₂ ∧
      ∃ e₁ e₂, s₂.index = e₂ :: e₁ :: s.index ∧
        e₁.hash_input = hi ∧ e₂.hash_input = hi ∧ e₁.keyHash ≠ e₂.keyHash := by
  have hsig : buildSignature f kwargs₁ ≠ buildSignature f kwargs₂ := by
    intro hEq
    rw [hEq] at hv₁
    exact hne (Option.some.inj (hv₁.symm.trans hv₂))
  have hhs : hashSignature (buildSignature f kwargs₁) ≠ hashSignature (buildSignature f kwargs₂) :=
    fun h => hsig (hashSignature_injective h)
  have hkey : (combineKey hi (hashSignature (buildSignature f kwargs₁))).hash ≠
      (combineKey hi (hashSignature (buildSignature f kwargs₂))).hash :=
    fun h => hhs (combineHash_right_injective h)
  have h₁ := invoke_miss_eq f impl input kwargs₁ ho vb s hi hin hm₁
  have hm₂' : lookupEntry
      ((store s (combineKey hi (hashSignature (buildSignature f kwargs₁)))
        (stampMetadata (impl input) (combineKey hi (hashSignature (buildSignature f kwargs₁)))
          (buildSignature f kwargs₁)) input.name f.name input.name).1).index
      (combineKey hi (hashSignature (buildSignature f kwargs₂))).hash = none := by
    simp only [store]
    rw [lookupEntry_cons_ne]
    · exact hm₂
    · exact hkey
  have h₂ := invoke_miss_eq f impl input kwargs₂ ho vb
    ((store s (combineKey hi (hashSignature (buildSignature f kwargs₁)))
      (stampMetadata (impl input) (combineKey hi (hashSignature (buildSignature f kwargs₁)))
        (buildSignature f kwargs₁)) input.name f.name input.name).1) hi hin hm₂'
  refine ⟨hhs, hkey, _, _, _, _, _, _, h₁, h₂, by simp, by simp,
    (store s (combineKey hi (hashSignature (buildSignature f kwargs₁)))
      (stampMetadata (impl input) (combineKey hi (hashSignature (buildSignature f kwargs₁)))
        (buildSignature f kwargs₁)) input.name f.name input.name).2.1,
    (store ((store s (combineKey hi (hashSignature (buildSignature f kwargs₁)))
        (stampMetadata (impl input) (combineKey hi (hashSignature (buildSignature f kwargs₁)))
          (buildSignature f kwargs₁)) input.name f.name input.name).1)
      (combineKey hi (hashSignature (buildSignature f kwargs₂)))
      (stampMetadata (impl input) (combineKey hi (hashSignature (buildSignature f kwargs₂)))
        (buildSignature f kwargs₂)) input.name f.name input.name).2.1,
    ?_, rfl, rfl, hkey⟩
  simp only [store]

/-- Witness for C7: the scale scenario, factor 2 (by default) against
factor 3, from the empty cache. -/
theorem kwarg_sensitivity_witness :
    hashSignature (buildSignature exScale []) ≠
      hashSignature (buildSignature exScale [("factor", SValue.vInt 3)]) ∧
    (combineKey 7 (hashSignature (buildSignature exScale []))).hash ≠
      (combineKey 7 (hashSignature (buildSignature exScale [("factor", SValue.vInt 3)]))).hash ∧
    ∃ r₁ s₁ t₁ r₂ s₂ t₂,
      invoke exScale exImpl exIn [] ⟨true, none, false⟩ exS = Except.ok (r₁, s₁, t₁) ∧
      invoke exScale exImpl exIn [("factor", SValue.vInt 3)] ⟨true, none, false⟩ s₁ =
        Except.ok (r₂, s₂, t₂) ∧
      Effect.execFunction ∈ t₁ ∧ Effect.execFunction ∈ t₂ ∧
      ∃ e₁ e₂, s₂.index = e₂ :: e₁ :: exS.index ∧
        e₁.hash_input = 7 ∧ e₂.hash_input = 7 ∧ e₁.keyHash ≠ e₂.keyHash :=
  kwarg_sensitivity exScale exImpl exIn [] [("factor", SValue.vInt 3)] none false exS 7
    "factor" (SValue.vInt 2) (SValue.vInt 3) rfl rfl rfl (by decide) rfl rfl

/-- C8: a parameter omitted at the call site is serialized into the call
signature with its declared default value, and a call passing that same
default explicitly yields an identical signature, the same cache key, and
hits the same cache entry: after a successful call omitting the
parameter, the explicit call returns the very same object without
executing the wrapped function. -/
theorem default_binding (f : FunctionIdentity) (pname : String) (d : SValue)
    (impl : DataObject → DataObject) (input : DataObject)
    (kwargs : List (String × SValue)) (ho : Option Nat) (vb : Bool)
    (s s₁ : CacheState) (r : DataObject) (t₁ : List Effect)
    (homit : lookupKV kwargs pname = none)
    (hdecl : ∀ q ∈ f.params, q.1 = pname → q.2 = d)
    (hmem : (pname, d) ∈ f.params)
    (h₁ : invoke f impl input kwargs ⟨true, ho, vb⟩ s = Except.ok (r, s₁, t₁)) :
    (pname, d) ∈ (buildSignature f kwargs).parameters ∧
    buildSignature f ((pname, d) :: kwargs) = buildSignature f kwargs ∧
    (∀ hi, combineKey hi (hashSignature (buildSignature f ((pname, d) :: kwargs))) =
      combineKey hi (hashSignature (buildSignature f kwargs))) ∧
    ∃ p, invoke f impl input ((pname, d) :: kwargs) ⟨true, ho, vb⟩ s₁ =
        Except.ok (r, s₁, [Effect.lookupIndex, Effect.readFile p]) ∧
      Effect.execFunction ∉ [Effect.lookupIndex, Effect.readFile p] := by
  have hsig : buildSignature f ((pname, d) :: kwargs) = buildSignature f kwargs := by
    simp only [buildSignature, CallSignature.mk.injEq]
    refine ⟨trivial, trivial, trivial, ?_⟩
    apply List.map_congr_left
    intro q hq
    by_cases hq1 : q.1 = pname
    · have h2 := hdecl q hq hq1
      simp [hq1, lookupKV_cons_eq, homit, h2]
    · have hq2 : pname ≠ q.1 := fun hh => hq1 hh.symm
      simp [lookupKV_cons_ne pname q.1 d kwargs hq2]
  have h1m : (pname, d) ∈ (buildSignature f kwargs).parameters := by
    simp only [buildSignature]
    have hmap := List.mem_map_of_mem (fun p => (p.1, (lookupKV kwargs p.1).getD p.2)) hmem
    simpa [homit] using hmap
  obtain ⟨p, hp⟩ :=
    invoke_again f impl impl input kwargs ((pname, d) :: kwargs) ho vb vb s s₁ r t₁ hsig h₁
  exact ⟨h1m, hsig, fun hi => by rw [hsig], ⟨p, hp, by simp⟩⟩

/-- Witness for C8: omitting `k` versus passing its declared default 2
explicitly, after a concrete first call. -/
theorem default_binding_witness :
    ("k", SValue.vInt 2) ∈ (buildSignature exF []).parameters ∧
    buildSignature exF [("k", SValue.vInt 2)] = buildSignature exF [] ∧
    (∀ hi, combineKey hi (hashSignature (buildSignature exF [("k", SValue.vInt 2)])) =
      combineKey hi (hashSignature (buildSignature exF []))) ∧
    ∃ p, invoke exF exImpl exIn [("k", SValue.vInt 2)] ⟨true, none, false⟩ exS1 =
        Except.ok (exStamped, exS1, [Effect.lookupIndex, Effect.readFile p]) ∧
      Effect.execFunction ∉ [Effect.lookupIndex, Effect.readFile p] := by
  have h₁ : invoke exF exImpl exIn [] ⟨true, none, false⟩ exS =
      Except.ok (exStamped, exS1, Effect.lookupIndex :: Effect.execFunction :: exStore.2.2) :=
    invoke_miss_eq exF exImpl exIn [] none false exS 7 rfl rfl
  exact default_binding exF "k" (SValue.vInt 2) exImpl exIn [] none false exS exS1 exStamped _
    rfl (by decide) (by decide) h₁

/-- C9: the cache index is the single file `hash.json` inside the cache
directory; a cache-miss invocation writes the object file and then
rewrites the index file, in that order, while a cache hit only reads the
index in memory and the stored object file, leaving the state (and hence
the persisted index) untouched. -/
theorem index_file_discipline (f : FunctionIdentity) (impl : DataObject → DataObject)
    (input : DataObject) (kwargs : List (String × SValue)) (ho : Option Nat) (vb : Bool)
    (s : CacheState) (hi : Nat) (entry : CacheEntry) (obj : DataObject)
    (hin : extractInputHash ⟨true, ho, vb⟩ input = some hi) :
    indexPath s = s.dir ++ "/hash.json" ∧
    (lookupEntry s.index (combineKey hi (hashSignature (buildSignature f kwargs))).hash = none →
      ∃ r s', invoke f impl input kwargs ⟨true, ho, vb⟩ s =
        Except.ok (r, s', [Effect.lookupIndex, Effect.execFunction,
          Effect.writeFile ((store s (combineKey hi (hashSignature (buildSignature f kwargs)))
            (stampMetadata (impl input) (combineKey hi (hashSignature (buildSignature f kwargs)))
              (buildSignature f kwargs)) input.name f.name input.name).2.1.file_path),
          Effect.writeIndex (indexPath s)])) ∧
    (lookupEntry s.index (combineKey hi (hashSignature (buildSignature f kwargs))).hash = some entry →
      loadFile s entry.file_path = some obj →
      invoke f impl input kwargs ⟨true, ho, vb⟩ s =
        Except.ok (obj, s, [Effect.lookupIndex, Effect.readFile entry.file_path])) := by
  refine ⟨rfl, ?_, fun hL hF => ?_⟩
  · intro hm
    exact ⟨stampMetadata (impl input) (combineKey hi (hashSignature (buildSignature f kwargs)))
        (buildSignature f kwargs),
      (store s (combineKey hi (hashSignature (buildSignature f kwargs)))
        (stampMetadata (impl input) (combineKey hi (hashSignature (buildSignature f kwargs)))
          (buildSignature f kwargs)) input.name f.name input.name).1,
      invoke_miss_eq f impl input kwargs ho vb s hi hin hm⟩
  · simp only [invoke, hin, hL, hF, if_true]

/-- Witness for C9: the miss branch from the empty cache and the hit
branch against the populated cache. -/
theorem index_file_discipline_witness :
    (∃ r s', invoke exF exImpl exIn [] ⟨true, none, false⟩ exS =
      Except.ok (r, s', [Effect.lookupIndex, Effect.execFunction,
        Effect.writeFile exStore.2.1.file_path, Effect.writeIndex (indexPath exS)])) ∧
    invoke exF exImpl exIn [] ⟨true, none, false⟩ exS1 =
      Except.ok (exStamped, exS1, [Effect.lookupIndex, Effect.readFile exStore.2.1.file_path]) := by
  constructor
  · exact (index_file_discipline exF exImpl exIn [] none false exS 7 exStore.2.1 exStamped
      rfl).2.1 rfl
  · exact (index_file_discipline exF exImpl exIn [] none false exS1 7 exStore.2.1 exStamped
      rfl).2.2 rfl rfl

end Xrcache
